import Mathlib

/-!
Shallow embedding of the `grid_mask` crate.

Two grid representations are embedded:

* `GridMask` (src/grid/mask.rs): an 8x8 mask stored in one `u64`. The `u64`
  is modeled as a `Nat`; every operation that can wrap on `u64` is followed
  by an explicit `% 2 ^ 64` (release-mode wrapping semantics).
* `ArrayGrid<W, H, WORDS>` (src/array/grid.rs): a `W x H` grid stored in
  `WORDS` words of 64 bits via `bitvec` with `Lsb0` ordering. Flat bit `i`
  of the grid lives in word `i / 64` at bit `i % 64`, which is exactly bit
  `i` of the little-endian `Nat` encoding of the word array. A grid value
  is therefore a `Nat` below `2 ^ (64 * WORDS)`.

Row-major order: flat index of cell `(x, y)` is `y * width + x`.
-/

/-! ## u64 primitives -/

/-- The `u64` bitwise complement `!x`, i.e. xor with all 64 ones. Faithful
for operands below `2 ^ 64`. -/
def u64Not (x : Nat) : Nat := x ^^^ (2 ^ 64 - 1)

/-- `generate_mask_u64(start..end)` from src/ext/bits/from_range.rs:
`(u64::MAX << start) & (u64::MAX.unbounded_shr(64 - end))`. The left shift
truncates mod `2 ^ 64`; `unbounded_shr` is plain `Nat` shift (it yields 0
for shifts of 64 or more). -/
def generateMaskU64 (s e : Nat) : Nat :=
  (((2 ^ 64 - 1) <<< s) % 2 ^ 64) &&& ((2 ^ 64 - 1) >>> (64 - e))

/-- `trailing_zeros` restricted to the low `w` bits: returns `w` when those
bits are all zero. -/
def trailingZerosBelow : Nat → Nat → Nat
  | 0, _ => 0
  | w + 1, n => if n % 2 = 1 then 0 else trailingZerosBelow w (n / 2) + 1

/-- `u64::trailing_zeros`: 64 when the value is zero. -/
def u64TrailingZeros (n : Nat) : Nat := trailingZerosBelow 64 n

/-- `u64::leading_zeros` of a value below `2 ^ 64`: `64 - bit_length`. -/
def u64LeadingZeros (n : Nat) : Nat := 64 - (if n = 0 then 0 else Nat.log2 n + 1)

/-- `u8::trailing_zeros` of a value below `2 ^ 8`. -/
def u8TrailingZeros (n : Nat) : Nat := trailingZerosBelow 8 n

/-- `u8::leading_zeros` of a value below `2 ^ 8`. -/
def u8LeadingZeros (n : Nat) : Nat := 8 - (if n = 0 then 0 else Nat.log2 n + 1)

/-- Population count of a `Nat` (`u64::count_ones` on values below `2 ^ 64`). -/
def bitCount (n : Nat) : Nat :=
  if n = 0 then 0 else bitCount (n / 2) + n % 2
decreasing_by exact Nat.bitwise_rec_lemma (by assumption)

/-! ## GridMask (src/grid/mask.rs) -/

/-- `GridMask::COL_FIRST`: a bitmask of the first column of the 8x8 grid. -/
def GridMask.COL_FIRST : Nat := 0x0101010101010101

/-- `GridMask::translate` (src/grid/mask.rs lines 477-512). The vector
components are `i8`, modeled as `Int`. The `y` match arms come first and
the catch-all arm returns the empty mask; then the `x` arms. For `dx` in
`1..=7` the wrapped columns are removed with
`col_mask = u64::from_bit_range(..dx) * COL_FIRST`, i.e.
`generateMaskU64 0 dx * COL_FIRST`; for `dx` in `-7..=-1` with
`col_mask = u64::from_bit_range((8 - |dx|)..) * COL_FIRST`, i.e.
`generateMaskU64 (8 - |dx|) 64 * COL_FIRST`. Both multiplications are
plain `u64` multiplications, so they wrap mod `2 ^ 64` (in a debug build
the second one panics: its left factor has bit 63 set). -/
def GridMask.shiftY (m : Nat) (vy : Int) : Option Nat :=
  if 1 ≤ vy ∧ vy ≤ 7 then some ((m <<< (vy.toNat * 8)) % 2 ^ 64)
  else if -7 ≤ vy ∧ vy ≤ -1 then some (m >>> ((-vy).toNat * 8))
  else if vy = 0 then some m
  else none

/-- The `vector.x` match of `GridMask::translate` applied to the already
vertically shifted mask. -/
def GridMask.shiftX (my : Nat) (vx : Int) : Nat :=
  if 1 ≤ vx ∧ vx ≤ 7 then
    ((my <<< vx.toNat) % 2 ^ 64)
      &&& u64Not ((generateMaskU64 0 vx.toNat * GridMask.COL_FIRST) % 2 ^ 64)
  else if -7 ≤ vx ∧ vx ≤ -1 then
    (my >>> (-vx).toNat)
      &&& u64Not ((generateMaskU64 (8 - (-vx).toNat) 64 * GridMask.COL_FIRST) % 2 ^ 64)
  else if vx = 0 then my
  else 0

/-- The composition of the two matches above. The first doc comment block
describes the whole function; `GridMask.shiftY` is the `vector.y` match
(its `none` arm is the early `return Self::EMPTY`). -/
def GridMask.translate (m : Nat) (vx vy : Int) : Nat :=
  match GridMask.shiftY m vy with
  | none => 0
  | some my => GridMask.shiftX my vx

/-- The two sealed `Adjacency` strategies (src/grid/adjacency.rs). -/
inductive Adjacency where
  | cardinal
  | octile
deriving DecidableEq

/-- `Adjacency::grow` for `Cardinal` and `Octile`
(src/grid/adjacency.rs). `Cardinal` unions the mask with its four unit
translations; `Octile` grows vertically first and then grows the vertical
result horizontally. Unit vectors: NORTH `(0, -1)`, SOUTH `(0, 1)`,
EAST `(1, 0)`, WEST `(-1, 0)`. -/
def Adjacency.grow : Adjacency → Nat → Nat
  | .cardinal, m =>
    m ||| GridMask.translate m 0 (-1) ||| GridMask.translate m 0 1
      ||| GridMask.translate m 1 0 ||| GridMask.translate m (-1) 0
  | .octile, m =>
    let vertical := m ||| GridMask.translate m 0 (-1) ||| GridMask.translate m 0 1
    vertical ||| GridMask.translate vertical 1 0 ||| GridMask.translate vertical (-1) 0

/-- The `loop` of `GridMask::connected` (src/grid/mask.rs lines 378-383),
embedded with explicit fuel: each step computes
`grown = A::grow(flooded) & mask` and stops at the first fixed point. The
source loop is unbounded; the fuel-indexed embedding agrees with it
because a fixed point is always reached within `bitCount mask` steps
(proved below), and `bitCount mask ≤ 64`. -/
def GridMask.connectedAux (a : Adjacency) (mask : Nat) : Nat → Nat → Nat
  | 0, flooded => flooded
  | fuel + 1, flooded =>
    let grown := a.grow flooded &&& mask
    if grown = flooded then flooded else GridMask.connectedAux a mask fuel grown

/-- `GridMask::connected` (src/grid/mask.rs lines 372-384). The seed is a
`GridIndex` (a validated bit index, so `seed < 64` for callers);
`seed.to_grid_mask()` is the single-bit mask `2 ^ seed`. Returns
immediately when the seeded frontier is empty. Fuel 64 covers the
`bitCount mask` iterations the loop can need at most. -/
def GridMask.connected (a : Adjacency) (mask seed : Nat) : Nat :=
  let flooded := 2 ^ seed &&& mask
  if flooded = 0 then flooded else GridMask.connectedAux a mask 64 flooded

/-- `BitIndexU64::from_first_set` (src/num/grid_index_u64.rs): the index of
the lowest set bit, or `none` when the value is zero (`trailing_zeros`
returns 64 outside `0..64`). `GridIndexU64::from_first_set` used by
`TryFrom<GridMask> for GridShape` is the same computation. -/
def BitIndexU64.fromFirstSet (n : Nat) : Option Nat :=
  if u64TrailingZeros n < 64 then some (u64TrailingZeros n) else none

/-- `GridMask::is_contiguous` (src/grid/mask.rs lines 431-433): some bit is
set and the region connected from the first set bit equals the mask. -/
def GridMask.isContiguous (a : Adjacency) (m : Nat) : Bool :=
  match BitIndexU64.fromFirstSet m with
  | none => false
  | some seed => GridMask.connected a m seed == m

/-- `TryFrom<GridMask> for GridShape<A>` (src/grid/shape.rs lines 179-186).
`.ok` carries the shape's mask; `.error` is `Discontiguous` carrying the
candidate mask. -/
def GridShape.tryFromMask (a : Adjacency) (m : Nat) : Except Nat Nat :=
  match BitIndexU64.fromFirstSet m with
  | none => .error m
  | some seed =>
    if GridMask.connected a m seed = m then .ok m else .error m

/-- `GridShape::translate` (src/grid/shape.rs lines 134-136): translate the
underlying mask and re-validate contiguity. -/
def GridShape.translate (a : Adjacency) (s : Nat) (vx vy : Int) : Except Nat Nat :=
  GridShape.tryFromMask a (GridMask.translate s vx vy)

/-- `GridShape::cast` (src/grid/shape.rs lines 158-160): re-validate the
mask under another adjacency rule. -/
def GridShape.cast (a2 : Adjacency) (s : Nat) : Except Nat Nat :=
  GridShape.tryFromMask a2 s

/-- `GridShape::FULL`'s underlying mask (`GridMask::FULL = !0u64`). -/
def GridMask.FULL : Nat := 2 ^ 64 - 1

/-- `GridMask::occupied_cols` (src/grid/mask.rs lines 241-247): fold the
eight rows together with shifts and keep the low byte. -/
def GridMask.occupiedCols (m : Nat) : Nat :=
  let rows2 := m ||| (m >>> 8)
  let rows4 := rows2 ||| (rows2 >>> 16)
  let rows8 := rows4 ||| (rows4 >>> 32)
  rows8 &&& 0xFF

/-- `GridMask::occupied_rows_span` (src/grid/mask.rs lines 274-278), only
called on a nonzero mask: `trailing_zeros / 8 .. (63 - leading_zeros) / 8 + 1`. -/
def GridMask.occupiedRowsSpan (m : Nat) : Nat × Nat :=
  (u64TrailingZeros m / 8, (63 - u64LeadingZeros m) / 8 + 1)

/-- `OccupiedBitSpan::occupied_span` for `u8`
(src/ext/bits/occupied_span.rs): the half open span of set bits, empty for
zero. -/
def u8OccupiedSpan (c : Nat) : Nat × Nat :=
  if c = 0 then (0, 0) else (u8TrailingZeros c, 8 - u8LeadingZeros c)

/-- `GridMask::bounds` (src/grid/mask.rs lines 291-301): `none` for the
empty mask, otherwise the bounding rectangle `((x, y), (w, h))` from the
occupied column and row spans. -/
def GridMask.bounds (m : Nat) : Option ((Nat × Nat) × (Nat × Nat)) :=
  if m = 0 then none
  else
    let ySpan := GridMask.occupiedRowsSpan m
    let xSpan := u8OccupiedSpan (GridMask.occupiedCols m)
    some ((xSpan.1, ySpan.1), (xSpan.2 - xSpan.1, ySpan.2 - ySpan.1))

/-- `TryGridIndex::try_to_index` for an `(x, y)` pair of unsigned
coordinates (src/grid/index.rs lines 61-71): each coordinate must convert
into a `GridPos` (`0..=7`), else `OutOfBounds`; the index is `y * 8 + x`. -/
def tryToIndexPair (x y : Nat) : Except Unit Nat :=
  if 7 < x then .error () else if 7 < y then .error () else .ok (y * 8 + x)

/-- `TryGridIndex::to_grid_mask` (src/grid/index.rs lines 36-40): the
single-bit mask of the index, or `GridMask::EMPTY` when out of bounds. -/
def toGridMaskPair (x y : Nat) : Nat :=
  match tryToIndexPair x y with
  | .error _ => 0
  | .ok i => 2 ^ i

/-- `GridMask::index` (src/grid/mask.rs lines 132-134):
`try_to_index().is_ok_and(|i| self.0 & (1 << i) != 0)`. -/
def GridMask.index (m x y : Nat) : Bool :=
  match tryToIndexPair x y with
  | .error _ => false
  | .ok i => m &&& 2 ^ i != 0

/-- `GridMask::set` (src/grid/mask.rs line 78): `self | pos.to_grid_mask()`. -/
def GridMask.set (m x y : Nat) : Nat := m ||| toGridMaskPair x y

/-- `GridMask::unset` (src/grid/mask.rs line 106): `self & !pos.to_grid_mask()`. -/
def GridMask.unset (m x y : Nat) : Nat := m &&& u64Not (toGridMaskPair x y)

/-! ## ArrayGrid (src/array/grid.rs) -/

/-- `ArrayGrid::clear_trailing_bits` (src/array/grid.rs lines 441-443):
clears the unused tail of the last word, i.e. every flat bit at index
`W * H` or above. On the flat `Nat` encoding (with `WORDS` minimal and the
word array below `2 ^ (64 * WORDS)`) that is reduction mod `2 ^ (W * H)`. -/
def ArrayGrid.clearTrailingBits (W H data : Nat) : Nat := data % 2 ^ (W * H)

/-- `From<[u64; WORDS]> for ArrayGrid` (src/array/grid.rs lines 449-455):
wrap the caller-supplied raw words and re-apply the tail mask. -/
def ArrayGrid.fromWords (W H w : Nat) : Nat := ArrayGrid.clearTrailingBits W H w

/-- `ArrayGrid::fill` (src/array/grid.rs lines 314-316): writes `value` to
the bits `0..W*H`; storage bits at `W * H` and above are not touched. The
two disjoint parts are recombined with `|||`. -/
def ArrayGrid.fill (W H data : Nat) (value : Bool) : Nat :=
  ((data >>> (W * H)) <<< (W * H)) ||| (if value then 2 ^ (W * H) - 1 else 0)

/-- `ArrayGrid::FULL` (src/array/grid.rs lines 28-34): all words set to
ones, then the tail mask. -/
def ArrayGrid.FULL (W H WORDS : Nat) : Nat :=
  ArrayGrid.clearTrailingBits W H (2 ^ (64 * WORDS) - 1)

/-- `ArrayGrid::const_set` (src/array/grid.rs lines 301-306) at a validated
flat index: `data[word] |= 1 << bit` or `data[word] &= !(1 << bit)`, i.e.
set or clear flat bit `i`. -/
def ArrayGrid.constSet (data i : Nat) (value : Bool) : Nat :=
  if value then data ||| 2 ^ i else Nat.ldiff data (2 ^ i)

/-- `ArrayGrid::const_get` (src/array/grid.rs lines 166-169):
`data[word] & (1 << bit) != 0`, i.e. flat bit `i`. -/
def ArrayGrid.constGet (data i : Nat) : Bool := data.testBit i

/-- `ArrayGrid::negate` (src/array/grid.rs lines 409-412): complement every
storage word, then clear the trailing bits. -/
def ArrayGrid.negate (W H WORDS data : Nat) : Nat :=
  ArrayGrid.clearTrailingBits W H (data ^^^ (2 ^ (64 * WORDS) - 1))

/-- `ArrayGrid::mutate_data` (src/array/grid.rs lines 422-426): the closure
may rewrite the words arbitrarily; trailing bits are cleared afterwards. -/
def ArrayGrid.mutateData (W H data : Nat) (f : Nat → Nat) : Nat :=
  ArrayGrid.clearTrailingBits W H (f data)

/-- Clears the flat bits `lo..hi` of `data` (`lo ≤ hi`): the part at `hi`
and above and the part below `lo` are kept, recombined with `|||`. -/
def clearBitRange (data lo hi : Nat) : Nat :=
  ((data >>> hi) <<< hi) ||| (data % 2 ^ lo)

/-- `ArrayGrid::clear_wrapped_columns` (src/array/grid.rs lines 393-406):
for `dx > 0` clear columns `0..dx` of every row, for `dx < 0` clear
columns `W-|dx|..W`, for `dx = 0` return unchanged. Per row `r` the
cleared flat range is `r*W + min .. r*W + max`; the source sweeps
`chunks_mut(W).take(H)`. -/
def ArrayGrid.clearWrappedColumns (W H : Nat) (dx : Int) (data : Nat) : Nat :=
  if dx = 0 then data
  else
    let mm : Nat × Nat := if 0 < dx then (0, dx.toNat) else (W - (-dx).toNat, W)
    (List.range H).foldl (fun acc r => clearBitRange acc (r * W + mm.1) (r * W + mm.2)) data

/-- `TryFrom<ArrayVector> for ArrayDelta` (src/array/delta.rs lines 27-38)
fused with `ArrayGrid::translate` (src/array/grid.rs lines 322-337).
Validation fails when `|dx| ≥ W` or `|dy| ≥ H`; the `Err` arm clears the
grid. Otherwise the signed linear offset is `dy * W + dx`; a positive
offset is a `bitvec` `shift_right` (toward higher flat indices, truncated
at the storage width `64 * WORDS`), a negative one a `shift_left`, both
followed by `clear_wrapped_columns(dx)` and `clear_trailing_bits`. -/
def ArrayGrid.translate (W H WORDS : Nat) (data : Nat) (dx dy : Int) : Nat :=
  if W ≤ dx.natAbs ∨ H ≤ dy.natAbs then ArrayGrid.fill W H data false
  else
    let linear : Int := dy * (W : Int) + dx
    if linear = 0 then data
    else if 0 < linear then
      ArrayGrid.clearTrailingBits W H
        (ArrayGrid.clearWrappedColumns W H dx ((data <<< linear.toNat) % 2 ^ (64 * WORDS)))
    else
      ArrayGrid.clearTrailingBits W H
        (ArrayGrid.clearWrappedColumns W H dx (data >>> (-linear).toNat))

/-- The flat bits `lo..lo+len` of `data`, as a `len`-bit value (one row of
a `GridView`, src/array/view.rs lines 89-98). -/
def extractBits (data lo len : Nat) : Nat := (data >>> lo) % 2 ^ len

/-- Overwrites the flat bits `lo..lo+len` of `data` with the `len`-bit
value `v` (writing one row of a `GridViewMut`). -/
def insertBits (data lo len v : Nat) : Nat :=
  clearBitRange data lo (lo + len) ||| ((v % 2 ^ len) <<< lo)

/-- `ArrayGrid::bitwise_op_at` (src/array/grid.rs lines 339-351) with a
whole source grid of size `sw x sh` and flat data `src`. The placement
point `(ax, ay)` is an `ArrayPoint` so callers have `ax < W`, `ay < H`.
`ArrayRect::new(at, other.size())` (src/array/rect.rs lines 28-42) fails
when a source dimension is zero or exceeds the grid (via `ArraySize`), or
when the rectangle sticks out. On success the operator is applied row by
row: destination row `r` occupies flat bits `(ay+r)*W + ax ..+ sw`, source
row `r` occupies `r*sw ..+ sw`. -/
def ArrayGrid.bitwiseOpAt (W H : Nat) (data : Nat) (sw sh : Nat) (src : Nat) (ax ay : Nat)
    (op : Nat → Nat → Nat) : Except Unit Nat :=
  if sw = 0 ∨ sh = 0 ∨ W < sw ∨ H < sh ∨ W < ax + sw ∨ H < ay + sh then .error ()
  else
    .ok ((List.range sh).foldl
      (fun acc r =>
        insertBits acc ((ay + r) * W + ax) sw
          (op (extractBits acc ((ay + r) * W + ax) sw) (extractBits src (r * sw) sw))) data)

/-- `ArrayGrid::bitand_at` (src/array/grid.rs lines 360-362). -/
def ArrayGrid.bitandAt (W H data sw sh src ax ay : Nat) : Except Unit Nat :=
  ArrayGrid.bitwiseOpAt W H data sw sh src ax ay Nat.land

/-- `ArrayGrid::bitor_at` (src/array/grid.rs lines 371-373). -/
def ArrayGrid.bitorAt (W H data sw sh src ax ay : Nat) : Except Unit Nat :=
  ArrayGrid.bitwiseOpAt W H data sw sh src ax ay Nat.lor

/-- `ArrayGrid::bitxor_at` (src/array/grid.rs lines 382-384). -/
def ArrayGrid.bitxorAt (W H data sw sh src ax ay : Nat) : Except Unit Nat :=
  ArrayGrid.bitwiseOpAt W H data sw sh src ax ay Nat.xor

/-- `ArrayIndex::new` (src/array/index.rs lines 48-53): a flat index is
valid below `W * H`, `OutOfBounds` otherwise. -/
def ArrayIndex.new (W H i : Nat) : Except Unit Nat :=
  if W * H ≤ i then .error () else .ok i

/-- `ArrayPoint::new` (src/array/point.rs lines 50-61): both coordinates
are bounds checked. -/
def ArrayPoint.new (W H x y : Nat) : Except Unit (Nat × Nat) :=
  if W ≤ x then .error () else if H ≤ y then .error () else .ok (x, y)

/-- The fallible `usize` indexer of `ArrayGrid::get`
(src/array/grid_indexer.rs lines 33-39): validate the flat index, then
`const_get`. -/
def ArrayGrid.getAtIndex (W H data i : Nat) : Except Unit Bool :=
  match ArrayIndex.new W H i with
  | .error e => .error e
  | .ok j => .ok (ArrayGrid.constGet data j)

/-- The fallible `usize` indexer of `ArrayGrid::set`
(src/array/grid_indexer.rs lines 42-48). -/
def ArrayGrid.setAtIndex (W H data i : Nat) (v : Bool) : Except Unit Nat :=
  match ArrayIndex.new W H i with
  | .error e => .error e
  | .ok j => .ok (ArrayGrid.constSet data j v)

/-- The fallible `(x, y)` indexer of `ArrayGrid::get`
(src/array/grid_indexer.rs lines 87-97): validate into an `ArrayPoint`,
then `const_get` at flat index `y * W + x`. -/
def ArrayGrid.getAtPair (W H data x y : Nat) : Except Unit Bool :=
  match ArrayPoint.new W H x y with
  | .error e => .error e
  | .ok p => .ok (ArrayGrid.constGet data (p.2 * W + p.1))

/-- The fallible `(x, y)` indexer of `ArrayGrid::set`
(src/array/grid_indexer.rs lines 100-110). -/
def ArrayGrid.setAtPair (W H data x y : Nat) (v : Bool) : Except Unit Nat :=
  match ArrayPoint.new W H x y with
  | .error e => .error e
  | .ok p => .ok (ArrayGrid.constSet data (p.2 * W + p.1) v)

/-! ## Bit-level helper lemmas -/

theorem testBit_lt_iff_high (x n : Nat) :
    x < 2 ^ n ↔ ∀ i, n ≤ i → x.testBit i = false := by
  constructor
  · intro hx i hi
    exact Nat.testBit_lt_two_pow (lt_of_lt_of_le hx (Nat.pow_le_pow_right (by norm_num) hi))
  · intro h
    exact Nat.lt_pow_two_of_testBit x h

theorem testBit_clearBitRange (data lo hi i : Nat) (hlh : lo ≤ hi) :
    (clearBitRange data lo hi).testBit i =
      (data.testBit i && (decide (i < lo) || decide (hi ≤ i))) := by
  unfold clearBitRange
  simp only [Nat.testBit_lor, Nat.testBit_shiftLeft, Nat.testBit_shiftRight,
    Nat.testBit_mod_two_pow]
  rcases Nat.lt_or_ge i lo with h1 | h1
  · have h2 : ¬ hi ≤ i := by omega
    simp [h1, h2, Nat.not_le.mpr (by omega : i < hi)]
  · rcases Nat.lt_or_ge i hi with h2 | h2
    · simp [h2, Nat.not_le.mpr h2, Nat.not_lt.mpr h1]
    · have h3 : hi + (i - hi) = i := by omega
      simp [h2, h3, Nat.not_lt.mpr h1, ge_iff_le]

theorem testBit_insertBits_out (data lo len v i : Nat)
    (h : ¬(lo ≤ i ∧ i < lo + len)) :
    (insertBits data lo len v).testBit i = data.testBit i := by
  unfold insertBits
  simp only [Nat.testBit_lor, Nat.testBit_shiftLeft, Nat.testBit_mod_two_pow]
  rw [testBit_clearBitRange data lo (lo + len) i (by omega)]
  rcases Nat.lt_or_ge i lo with h1 | h1
  · simp [h1, Nat.not_le.mpr h1, ge_iff_le]
  · have h2 : lo + len ≤ i := by omega
    have h3 : ¬ i - lo < len := by omega
    simp [h1, h2, h3, ge_iff_le]

theorem testBit_insertBits_in (data lo len v i : Nat)
    (h1 : lo ≤ i) (h2 : i < lo + len) :
    (insertBits data lo len v).testBit i = v.testBit (i - lo) := by
  unfold insertBits
  simp only [Nat.testBit_lor, Nat.testBit_shiftLeft, Nat.testBit_mod_two_pow]
  rw [testBit_clearBitRange data lo (lo + len) i (by omega)]
  have h3 : i - lo < len := by omega
  simp [h1, h3, Nat.not_lt.mpr h1, Nat.not_le.mpr h2, ge_iff_le]

theorem bitwiseFold_testBit_outside (W sw ax ay : Nat) (op : Nat → Nat → Nat) (src : Nat) :
    ∀ (sh data j : Nat),
      (∀ r, r < sh → ¬((ay + r) * W + ax ≤ j ∧ j < (ay + r) * W + ax + sw)) →
      ((List.range sh).foldl
          (fun acc r =>
            insertBits acc ((ay + r) * W + ax) sw
              (op (extractBits acc ((ay + r) * W + ax) sw) (extractBits src (r * sw) sw)))
          data).testBit j
        = data.testBit j := by
  intro sh
  induction sh with
  | zero => intro data j _; rfl
  | succ n ih =>
    intro data j hj
    rw [List.range_succ, List.foldl_append]
    simp only [List.foldl_cons, List.foldl_nil]
    rw [testBit_insertBits_out _ _ _ _ _ (hj n (Nat.lt_succ_self n))]
    exact ih data j (fun r hr => hj r (Nat.lt_succ_of_lt hr))

theorem row_interval_cases (W ax sw x y k : Nat) (hx : x < W) (hfit : ax + sw ≤ W)
    (h1 : k * W + ax ≤ y * W + x) (h2 : y * W + x < k * W + ax + sw) :
    y = k ∧ ax ≤ x ∧ x < ax + sw := by
  have hyk : y = k := by
    rcases Nat.lt_trichotomy y k with h | h | h
    · have : (y + 1) * W ≤ k * W := Nat.mul_le_mul_right W h
      have : y * W + x < k * W := by
        calc y * W + x < y * W + W := by omega
        _ = (y + 1) * W := by ring
        _ ≤ k * W := this
      omega
    · exact h
    · have : (k + 1) * W ≤ y * W := Nat.mul_le_mul_right W h
      have : k * W + ax + sw ≤ y * W := by
        calc k * W + ax + sw ≤ k * W + W := by omega
        _ = (k + 1) * W := by ring
        _ ≤ y * W := this
      omega
  subst hyk
  omega

/-! ## bitCount lemmas -/

theorem bitCount_zero : bitCount 0 = 0 := by
  rw [bitCount]
  norm_num

theorem bitCount_unfold (n : Nat) (h : n ≠ 0) :
    bitCount n = bitCount (n / 2) + n % 2 := by
  rw [bitCount]
  simp [h]

theorem bitCount_le_of_lt_two_pow : ∀ (k n : Nat), n < 2 ^ k → bitCount n ≤ k := by
  intro k
  induction k with
  | zero =>
    intro n hn
    interval_cases n
    simp [bitCount_zero]
  | succ k ih =>
    intro n hn
    by_cases h : n = 0
    · simp [h, bitCount_zero]
    · rw [bitCount_unfold n h]
      have h1 : n / 2 < 2 ^ k := by
        rw [pow_succ] at hn
        omega
      have := ih (n / 2) h1
      omega

theorem bitCount_pos : ∀ (j g : Nat), g.testBit j = true → 1 ≤ bitCount g := by
  intro j
  induction j with
  | zero =>
    intro g hg
    rw [Nat.testBit_zero] at hg
    have h0 : g ≠ 0 := by
      intro h
      subst h
      simp at hg
    rw [bitCount_unfold g h0]
    simp at hg
    omega
  | succ j ih =>
    intro g hg
    rw [Nat.testBit_add_one] at hg
    have h1 := ih (g / 2) hg
    have h0 : g ≠ 0 := by
      intro h
      subst h
      simp [Nat.zero_testBit] at hg
    rw [bitCount_unfold g h0]
    omega

theorem bitCount_mono (f : Nat) :
    ∀ g, (∀ i, f.testBit i = true → g.testBit i = true) → bitCount f ≤ bitCount g := by
  induction f using Nat.strong_induction_on with
  | _ f ih =>
    intro g hsub
    by_cases hf : f = 0
    · simp [hf, bitCount_zero]
    · have hg : g ≠ 0 := by
        intro h
        subst h
        obtain ⟨i, _, hbit⟩ := @Nat.ge_two_pow_implies_high_bit_true 0 f
          (by simpa using Nat.one_le_iff_ne_zero.mpr hf)
        have := hsub _ hbit
        simp [Nat.zero_testBit] at this
      have hhalf : ∀ i, (f / 2).testBit i = true → (g / 2).testBit i = true := by
        intro i hi
        rw [← Nat.testBit_add_one] at hi ⊢
        exact hsub _ hi
      have h2 : bitCount (f / 2) ≤ bitCount (g / 2) :=
        ih (f / 2) (Nat.bitwise_rec_lemma hf) (g / 2) hhalf
      have hmod : f % 2 ≤ g % 2 := by
        rcases Nat.lt_or_ge (f % 2) (g % 2) with h | h
        · omega
        · by_cases hf2 : f % 2 = 1
          · have hbit : f.testBit 0 = true := by
              rw [Nat.testBit_zero]
              simp [hf2]
            have := hsub 0 hbit
            rw [Nat.testBit_zero] at this
            simp at this
            omega
          · omega
      rw [bitCount_unfold f hf, bitCount_unfold g hg]
      omega

theorem bitCount_strict : ∀ (j f g : Nat),
    (∀ i, f.testBit i = true → g.testBit i = true) →
    g.testBit j = true → f.testBit j = false → bitCount f < bitCount g := by
  intro j
  induction j with
  | zero =>
    intro f g hsub hgj hfj
    have hg : g ≠ 0 := by
      intro h
      subst h
      simp [Nat.zero_testBit] at hgj
    have hg2 : g % 2 = 1 := by
      rw [Nat.testBit_zero] at hgj
      simpa using hgj
    have hf2 : f % 2 = 0 := by
      rw [Nat.testBit_zero] at hfj
      simp at hfj
      omega
    have hhalf : ∀ i, (f / 2).testBit i = true → (g / 2).testBit i = true := by
      intro i hi
      rw [← Nat.testBit_add_one] at hi ⊢
      exact hsub _ hi
    have h2 : bitCount (f / 2) ≤ bitCount (g / 2) := bitCount_mono (f / 2) (g / 2) hhalf
    by_cases hf : f = 0
    · rw [hf, bitCount_zero, bitCount_unfold g hg]
      omega
    · rw [bitCount_unfold f hf, bitCount_unfold g hg]
      omega
  | succ j ih =>
    intro f g hsub hgj hfj
    have hg : g ≠ 0 := by
      intro h
      subst h
      simp [Nat.zero_testBit] at hgj
    rw [Nat.testBit_add_one] at hgj hfj
    have hhalf : ∀ i, (f / 2).testBit i = true → (g / 2).testBit i = true := by
      intro i hi
      rw [← Nat.testBit_add_one] at hi ⊢
      exact hsub _ hi
    have h2 : bitCount (f / 2) < bitCount (g / 2) := ih (f / 2) (g / 2) hhalf hgj hfj
    have hmod : f % 2 ≤ g % 2 := by
      by_cases hf2 : f % 2 = 1
      · have hbit : f.testBit 0 = true := by
          rw [Nat.testBit_zero]
          simp [hf2]
        have := hsub 0 hbit
        rw [Nat.testBit_zero] at this
        simp at this
        omega
      · omega
    by_cases hf : f = 0
    · have h1 : 1 ≤ bitCount g := bitCount_pos (j + 1) g (by rw [Nat.testBit_add_one]; exact hgj)
      rw [hf, bitCount_zero]
      omega
    · rw [bitCount_unfold f hf, bitCount_unfold g hg]
      omega

/-! ## grow and connected lemmas -/

theorem GridMask.shiftX_zero (vx : Int) : GridMask.shiftX 0 vx = 0 := by
  unfold GridMask.shiftX
  split_ifs <;> simp [Nat.zero_shiftLeft, Nat.zero_shiftRight, Nat.zero_mod, Nat.zero_and]

theorem GridMask.shiftY_zero (vy : Int) (my : Nat) :
    GridMask.shiftY 0 vy = some my → my = 0 := by
  unfold GridMask.shiftY
  split_ifs <;> intro h
  · injection h with h
    simp [Nat.zero_shiftLeft] at h
    omega
  · injection h with h
    simp [Nat.zero_shiftRight] at h
    omega
  · injection h with h
    omega
  · cases h

theorem GridMask.translate_zero (vx vy : Int) : GridMask.translate 0 vx vy = 0 := by
  unfold GridMask.translate
  cases h : GridMask.shiftY 0 vy with
  | none => rfl
  | some my =>
    have h0 := GridMask.shiftY_zero vy my h
    subst h0
    show GridMask.shiftX 0 vx = 0
    exact GridMask.shiftX_zero vx

theorem Adjacency.grow_zero (a : Adjacency) : a.grow 0 = 0 := by
  cases a <;> simp [Adjacency.grow, GridMask.translate_zero]

theorem Adjacency.grow_superset (a : Adjacency) (m : Nat) (i : Nat)
    (h : m.testBit i = true) : (a.grow m).testBit i = true := by
  cases a <;> simp [Adjacency.grow, Nat.testBit_lor, h]

theorem grow_land_self (a : Adjacency) (m : Nat) : a.grow m &&& m = m := by
  apply Nat.eq_of_testBit_eq
  intro i
  rw [Nat.testBit_land]
  cases h : m.testBit i
  · simp [h]
  · simp [h, a.grow_superset m i h]

theorem connectedAux_self (a : Adjacency) (m : Nat) :
    ∀ k, GridMask.connectedAux a m k m = m := by
  intro k
  cases k with
  | zero => rfl
  | succ k => simp [GridMask.connectedAux, grow_land_self a m]

theorem connectedAux_reaches_fix (a : Adjacency) (mask : Nat) :
    ∀ (fuel f : Nat),
      (∀ i, f.testBit i = true → mask.testBit i = true) →
      bitCount mask ≤ bitCount f + fuel →
      (a.grow (GridMask.connectedAux a mask fuel f) &&& mask
          = GridMask.connectedAux a mask fuel f)
      ∧ ∀ extra, GridMask.connectedAux a mask (fuel + extra) f
          = GridMask.connectedAux a mask fuel f := by
  intro fuel
  induction fuel with
  | zero =>
    intro f hsub hcount
    have hle : bitCount f ≤ bitCount mask := bitCount_mono f mask hsub
    have hfm : f = mask := by
      by_contra hne
      obtain ⟨j, hj⟩ : ∃ j, f.testBit j ≠ mask.testBit j := by
        by_contra hall
        push_neg at hall
        exact hne (Nat.eq_of_testBit_eq hall)
      have hfj : f.testBit j = false := by
        cases hf : f.testBit j
        · rfl
        · exact absurd (by rw [hsub j hf, hf]) hj
      have hmj : mask.testBit j = true := by
        cases hm : mask.testBit j
        · exact absurd (by rw [hm, hfj]) hj
        · rfl
      have := bitCount_strict j f mask hsub hmj hfj
      omega
    subst hfm
    refine ⟨grow_land_self a f, ?_⟩
    intro extra
    show GridMask.connectedAux a f (0 + extra) f = GridMask.connectedAux a f 0 f
    rw [Nat.zero_add, connectedAux_self a f extra]
    rfl
  | succ fuel ih =>
    intro f hsub hcount
    by_cases hfix : a.grow f &&& mask = f
    · constructor
      · simp [GridMask.connectedAux, hfix]
      · intro extra
        have heq : fuel + 1 + extra = (fuel + extra) + 1 := by omega
        rw [heq]
        simp [GridMask.connectedAux, hfix]
    · have hsub2 : ∀ i, (a.grow f &&& mask).testBit i = true → mask.testBit i = true := by
        intro i hi
        rw [Nat.testBit_land] at hi
        exact (Bool.and_eq_true _ _ |>.mp hi).2
      have hsubf : ∀ i, f.testBit i = true → (a.grow f &&& mask).testBit i = true := by
        intro i hi
        rw [Nat.testBit_land, a.grow_superset f i hi, hsub i hi]
        rfl
      obtain ⟨j, hj⟩ : ∃ j, (a.grow f &&& mask).testBit j ≠ f.testBit j := by
        by_contra hall
        push_neg at hall
        exact hfix (Nat.eq_of_testBit_eq hall)
      have hfj : f.testBit j = false := by
        cases hf : f.testBit j
        · rfl
        · exact absurd (by rw [hsubf j hf, hf]) hj
      have hgj : (a.grow f &&& mask).testBit j = true := by
        cases hg : (a.grow f &&& mask).testBit j
        · exact absurd (by rw [hg, hfj]) hj
        · rfl
      have hstrict := bitCount_strict j f (a.grow f &&& mask) hsubf hgj hfj
      have ih2 := ih (a.grow f &&& mask) hsub2 (by omega)
      constructor
      · show a.grow (if a.grow f &&& mask = f then f
            else GridMask.connectedAux a mask fuel (a.grow f &&& mask)) &&& mask = _
        rw [if_neg hfix]
        have := ih2.1
        simp only [GridMask.connectedAux]
        rw [if_neg hfix]
        exact this
      · intro extra
        have heq : fuel + 1 + extra = (fuel + extra) + 1 := by omega
        rw [heq]
        show (if a.grow f &&& mask = f then f
            else GridMask.connectedAux a mask (fuel + extra) (a.grow f &&& mask)) = _
        rw [if_neg hfix]
        simp only [GridMask.connectedAux]
        rw [if_neg hfix]
        exact ih2.2 extra

theorem connectedAux_empty (a : Adjacency) (m : Nat) :
    ∀ k, GridMask.connectedAux a m k 0 = 0 := by
  intro k
  cases k with
  | zero => rfl
  | succ k =>
    show (if a.grow 0 &&& m = 0 then 0 else GridMask.connectedAux a m k (a.grow 0 &&& m)) = 0
    rw [Adjacency.grow_zero, Nat.zero_and]
    simp

/-! ## Claim theorems -/

/-- C6: for every mask that `is_contiguous`, `TryFrom<GridMask>` succeeds
and the resulting `GridShape` carries back exactly that mask; for every
mask that is not contiguous (the empty mask included), it fails with a
`Discontiguous` error carrying the candidate mask. Both sides pick the
seed with `from_first_set`, so the two computations agree literally. -/
theorem shape_round_trip_iff_contiguous (a : Adjacency) (m : Nat) :
    GridShape.tryFromMask a m
      = (if GridMask.isContiguous a m then Except.ok m else Except.error m) := by
  unfold GridShape.tryFromMask GridMask.isContiguous
  cases h : BitIndexU64.fromFirstSet m with
  | none => simp
  | some seed =>
    by_cases hc : GridMask.connected a m seed = m
    · simp [hc]
    · simp [hc]

/-- C9: the fixed-point loop of `connected` terminates within
`bitCount mask` iterations: running the loop with that much fuel already
yields the final answer (fuel 64, the value used in the embedding, gives
the same result), and the returned value is a fixed point of the
grow-then-intersect step, which is exactly the loop's exit condition. -/
theorem connected_terminates_within_popcount (a : Adjacency) (mask seed : Nat)
    (hmask : mask < 2 ^ 64) :
    GridMask.connected a mask seed
        = GridMask.connectedAux a mask (bitCount mask) (2 ^ seed &&& mask)
    ∧ a.grow (GridMask.connected a mask seed) &&& mask
        = GridMask.connected a mask seed := by
  have hsub : ∀ i, (2 ^ seed &&& mask).testBit i = true → mask.testBit i = true := by
    intro i hi
    rw [Nat.testBit_land] at hi
    exact (Bool.and_eq_true _ _ |>.mp hi).2
  have hbc : bitCount mask ≤ 64 := bitCount_le_of_lt_two_pow 64 mask hmask
  have hmain := connectedAux_reaches_fix a mask (bitCount mask) (2 ^ seed &&& mask)
    hsub (by omega)
  have h64 : (64 : Nat) = bitCount mask + (64 - bitCount mask) := by omega
  by_cases h0 : 2 ^ seed &&& mask = 0
  · have hconn : GridMask.connected a mask seed = 0 := by
      simp [GridMask.connected, h0]
    rw [hconn, h0]
    refine ⟨(connectedAux_empty a mask (bitCount mask)).symm, ?_⟩
    rw [Adjacency.grow_zero, Nat.zero_and]
  · have hconn : GridMask.connected a mask seed
        = GridMask.connectedAux a mask 64 (2 ^ seed &&& mask) := by
      simp [GridMask.connected, h0]
    rw [hconn]
    constructor
    · rw [h64, hmain.2 (64 - bitCount mask)]
    · rw [h64, hmain.2 (64 - bitCount mask)]
      exact hmain.1

/-- C9 witness at the concrete mask `{0, 1}` with seed 0. -/
theorem connected_terminates_within_popcount_witness :
    GridMask.connected .cardinal 3 0
        = GridMask.connectedAux .cardinal 3 (bitCount 3) (2 ^ 0 &&& 3)
    ∧ Adjacency.grow .cardinal (GridMask.connected .cardinal 3 0) &&& 3
        = GridMask.connected .cardinal 3 0 :=
  connected_terminates_within_popcount .cardinal 3 0 (by norm_num)

/-- C10: every mask a `GridShape` can carry is validated: a successful
`TryFrom<GridMask>` (the route taken by pattern parsing, `u64` and bool
array conversions, `translate` and `cast`) yields exactly a contiguous,
hence non-empty, mask, and `GridMask::bounds` on it is always `some`, so
the `unwrap_unchecked` in `GridShape::bounds` is never reached. The
`FULL` constant, the one shape built without validation, is itself
contiguous under both adjacency rules. -/
theorem shape_invariant_contiguous_nonempty (a : Adjacency) (m s : Nat) :
    (GridShape.tryFromMask a m = Except.ok s →
      GridMask.isContiguous a s = true ∧ s ≠ 0 ∧ (GridMask.bounds s).isSome = true)
    ∧ GridMask.isContiguous .cardinal GridMask.FULL = true
    ∧ GridMask.isContiguous .octile GridMask.FULL = true := by
  refine ⟨?_, by rfl, by rfl⟩
  intro hok
  cases h : BitIndexU64.fromFirstSet m with
  | none =>
    simp only [GridShape.tryFromMask, h] at hok
    cases hok
  | some seed =>
    simp only [GridShape.tryFromMask, h] at hok
    by_cases hc : GridMask.connected a m seed = m
    · rw [if_pos hc] at hok
      have hms : m = s := by
        injection hok
      subst hms
      have hm0 : m ≠ 0 := by
        intro h0
        subst h0
        rw [show BitIndexU64.fromFirstSet 0 = none from rfl] at h
        cases h
      refine ⟨?_, hm0, ?_⟩
      · unfold GridMask.isContiguous
        rw [h]
        simp [hc]
      · unfold GridMask.bounds
        rw [if_neg hm0]
        rfl
    · rw [if_neg hc] at hok
      cases hok

/-- C10 witness at the concrete contiguous mask `{0, 1}`. -/
theorem shape_invariant_contiguous_nonempty_witness :
    GridMask.isContiguous .cardinal 3 = true ∧ (3 : Nat) ≠ 0
      ∧ (GridMask.bounds 3).isSome = true :=
  (shape_invariant_contiguous_nonempty .cardinal 3 3).1 (by rfl)

theorem clearTrailingBits_lt (W H data : Nat) :
    ArrayGrid.clearTrailingBits W H data < 2 ^ (W * H) :=
  Nat.mod_lt data (Nat.pos_pow_of_pos (W * H) (by norm_num))

theorem fill_lt (W H data : Nat) (v : Bool) (h : data < 2 ^ (W * H)) :
    ArrayGrid.fill W H data v < 2 ^ (W * H) := by
  rw [testBit_lt_iff_high]
  intro j hj
  unfold ArrayGrid.fill
  rw [Nat.testBit_lor, Nat.testBit_shiftLeft]
  have hd : data.testBit (W * H + (j - W * H)) = false := by
    rw [(by omega : W * H + (j - W * H) = j)]
    exact (testBit_lt_iff_high data (W * H)).mp h j hj
  cases v
  · simp [hd]
  · simp [hd, Nat.testBit_two_pow_sub_one, Nat.not_lt.mpr hj]

/-- C2: when the displacement saturates either axis (`|dx| ≥ W` or
`|dy| ≥ H`), `ArrayDelta` validation fails and `ArrayGrid::translate`
clears the grid: every cell is unset, and under the tail invariant the
result is the all-zero grid. Likewise `GridMask::translate` (width and
height 8) returns the empty mask whenever either component saturates. -/
theorem translate_saturation_empty (W H WORDS data : Nat) (dx dy : Int) (m : Nat)
    (hsat : W ≤ dx.natAbs ∨ H ≤ dy.natAbs) :
    (∀ i, i < W * H → (ArrayGrid.translate W H WORDS data dx dy).testBit i = false)
    ∧ (data < 2 ^ (W * H) → ArrayGrid.translate W H WORDS data dx dy = 0)
    ∧ ((8 : Nat) ≤ dx.natAbs ∨ (8 : Nat) ≤ dy.natAbs → GridMask.translate m dx dy = 0) := by
  have htr : ArrayGrid.translate W H WORDS data dx dy = ArrayGrid.fill W H data false := by
    unfold ArrayGrid.translate
    rw [if_pos hsat]
  have h0 : (if false then 2 ^ (W * H) - 1 else 0) = 0 := rfl
  refine ⟨?_, ?_, ?_⟩
  · intro i hi
    rw [htr]
    unfold ArrayGrid.fill
    rw [h0, Nat.or_zero, Nat.testBit_shiftLeft]
    simp [Nat.not_le.mpr hi, ge_iff_le]
  · intro hdata
    rw [htr]
    unfold ArrayGrid.fill
    rw [h0, Nat.or_zero, Nat.shiftRight_eq_div_pow, Nat.div_eq_of_lt hdata,
      Nat.zero_shiftLeft]
  · intro h8
    unfold GridMask.translate
    rcases h8 with h8 | h8
    · cases hy : GridMask.shiftY m dy with
      | none => rfl
      | some my =>
        show GridMask.shiftX my dx = 0
        unfold GridMask.shiftX
        rw [if_neg (by omega), if_neg (by omega), if_neg (by omega)]
    · have hy : GridMask.shiftY m dy = none := by
        unfold GridMask.shiftY
        rw [if_neg (by omega), if_neg (by omega), if_neg (by omega)]
      rw [hy]

/-- C2 witness: an 8x8 grid shifted by `(9, 0)` and an 8x8 mask shifted by
`(9, 0)` are both cleared. -/
theorem translate_saturation_empty_witness :
    (ArrayGrid.translate 8 8 1 5 9 0).testBit 3 = false
    ∧ ArrayGrid.translate 8 8 1 5 9 0 = 0
    ∧ GridMask.translate 7 9 0 = 0 := by
  have h := translate_saturation_empty 8 8 1 5 9 0 7 (Or.inl (by decide))
  exact ⟨h.1 3 (by decide), h.2.1 (by decide), h.2.2 (Or.inl (by decide))⟩

theorem land_u64_all_ones (m : Nat) (h : m < 2 ^ 64) : m &&& (2 ^ 64 - 1) = m := by
  apply Nat.eq_of_testBit_eq
  intro i
  rw [Nat.testBit_land, Nat.testBit_two_pow_sub_one]
  rcases Nat.lt_or_ge i 64 with hi | hi
  · simp [hi]
  · rw [(testBit_lt_iff_high m 64).mp h i hi]
    simp

/-- C5 counterexample: the coordinate pair `(8, 8)` lies outside the fixed
8x8 dimensions, so its index conversion fails, yet `GridMask::set` reports
no `OutOfBounds` failure to its caller: it returns the mask unchanged, a
silent no-op (its return type `Self` has no failure channel at all). -/
theorem mask_set_oob_silent_noop :
    GridMask.set 0 8 8 = 0 ∧ tryToIndexPair 8 8 = Except.error () :=
  ⟨rfl, rfl⟩

/-- C5 amended: the index-conversion entry points
(`TryGridIndex::try_to_index`, `ArrayIndex::new`, `ArrayPoint::new`) and
the fallible `ArrayGrid::get`/`set` indexers do report `OutOfBounds` for
every out-of-range input, and valid inputs address exactly the requested
cell (never wrapped or clamped); but `GridMask::index`/`set`/`unset`
accept any `TryGridIndex` and map an out-of-bounds position to the empty
mask instead: `index` returns `false`, and `set`/`unset` return the mask
unchanged. -/
theorem oob_reporting_amended (m : Nat) (v : Bool) :
    (∀ x y, 7 < x ∨ 7 < y →
      tryToIndexPair x y = Except.error ()
      ∧ GridMask.index m x y = false
      ∧ GridMask.set m x y = m
      ∧ (m < 2 ^ 64 → GridMask.unset m x y = m))
    ∧ (∀ W H data i, W * H ≤ i →
        ArrayGrid.getAtIndex W H data i = Except.error ()
        ∧ ArrayGrid.setAtIndex W H data i v = Except.error ())
    ∧ (∀ W H data i, i < W * H →
        ArrayGrid.getAtIndex W H data i = Except.ok (data.testBit i))
    ∧ (∀ W H data x y, W ≤ x ∨ H ≤ y →
        ArrayGrid.getAtPair W H data x y = Except.error ()
        ∧ ArrayGrid.setAtPair W H data x y v = Except.error ())
    ∧ (∀ W H data x y, x < W → y < H →
        ArrayGrid.getAtPair W H data x y = Except.ok (data.testBit (y * W + x))) := by
  refine ⟨?_, ?_, ?_, ?_, ?_⟩
  · intro x y hxy
    have htr : tryToIndexPair x y = Except.error () := by
      unfold tryToIndexPair
      split_ifs <;> first | rfl | omega
    have hgm : toGridMaskPair x y = 0 := by
      simp only [toGridMaskPair, htr]
    refine ⟨htr, ?_, ?_, ?_⟩
    · simp only [GridMask.index, htr]
    · simp only [GridMask.set, hgm, Nat.or_zero]
    · intro hm
      simp only [GridMask.unset, hgm]
      show m &&& u64Not 0 = m
      unfold u64Not
      rw [Nat.zero_xor]
      exact land_u64_all_ones m hm
  · intro W H data i hi
    have hnew : ArrayIndex.new W H i = Except.error () := by
      unfold ArrayIndex.new
      rw [if_pos hi]
    exact ⟨by simp only [ArrayGrid.getAtIndex, hnew],
      by simp only [ArrayGrid.setAtIndex, hnew]⟩
  · intro W H data i hi
    have hnew : ArrayIndex.new W H i = Except.ok i := by
      unfold ArrayIndex.new
      rw [if_neg (by omega)]
    simp only [ArrayGrid.getAtIndex, hnew, ArrayGrid.constGet]
  · intro W H data x y hxy
    have hnew : ArrayPoint.new W H x y = Except.error () := by
      unfold ArrayPoint.new
      split_ifs <;> first | rfl | omega
    exact ⟨by simp only [ArrayGrid.getAtPair, hnew],
      by simp only [ArrayGrid.setAtPair, hnew]⟩
  · intro W H data x y hx hy
    have hnew : ArrayPoint.new W H x y = Except.ok (x, y) := by
      unfold ArrayPoint.new
      rw [if_neg (by omega), if_neg (by omega)]
    simp only [ArrayGrid.getAtPair, hnew, ArrayGrid.constGet]

/-- C5 amended witness at concrete inputs: the pair `(9, 0)` on a mask and
index 9 and pair `(3, 0)` on a 3x3 grid. -/
theorem oob_reporting_amended_witness :
    tryToIndexPair 9 0 = Except.error ()
    ∧ GridMask.index 5 9 0 = false
    ∧ GridMask.set 5 9 0 = 5
    ∧ GridMask.unset 5 9 0 = 5
    ∧ ArrayGrid.getAtIndex 3 3 6 9 = Except.error ()
    ∧ ArrayGrid.getAtIndex 3 3 6 2 = Except.ok true
    ∧ ArrayGrid.getAtPair 3 3 6 3 0 = Except.error () := by
  have h := oob_reporting_amended 5 false
  have h1 := h.1 9 0 (Or.inl (by decide))
  refine ⟨h1.1, h1.2.1, h1.2.2.1, h1.2.2.2 (by norm_num), ?_, ?_, ?_⟩
  · exact (h.2.1 3 3 6 9 (by decide)).1
  · have := h.2.2.1 3 3 6 2 (by decide)
    rw [this]
    rfl
  · exact (h.2.2.2.1 3 3 6 3 0 (Or.inl (by decide))).1

/-- C1: evaluation of `GridMask::translate` at the claim's inputs. The
positive direction behaves as claimed: the rightmost column translated by
EAST `(1, 0)` gives the empty mask. The negative direction does not: the
full mask translated by WEST `(-1, 0)` keeps the cell `(7, 1)` (flat bit
15) although the claim requires the last column to be cleared, and the
single cell `(4, 4)` translated WEST vanishes although the repository's
own test `translate::west` expects it at `(3, 4)`. The cause is the
`u64::from_bit_range((8 - |dx|)..) * COL_FIRST` column mask, whose
multiplication wraps mod `2 ^ 64` to the wrong mask. -/
theorem translate_column_wrap_eval :
    Nat.testBit (GridMask.translate GridMask.FULL (-1) 0) 15 = true
    ∧ GridMask.translate (2 ^ 36) (-1) 0 = 0
    ∧ GridMask.translate 0x8080808080808080 1 0 = 0 := by
  refine ⟨by decide, by decide, by decide⟩

/-- C4: evaluation of `GridMask::connected` at a failing input. The mask
holds the two horizontally adjacent cells `(3, 1)` and `(4, 1)` (flat bits
11 and 12). Seeded at bit 11 the flood fill reaches both cells — the two
cells are Cardinal-adjacent — but seeded at bit 12 it returns only the
seed, not the maximal reachable subset: the westward translation inside
`Cardinal::grow` drops the neighbor because of the wrapped column mask of
`GridMask::translate`. -/
theorem connected_misses_west_neighbor_eval :
    GridMask.connected .cardinal (2 ^ 11 ||| 2 ^ 12) 12 = 2 ^ 12
    ∧ GridMask.connected .cardinal (2 ^ 11 ||| 2 ^ 12) 11 = 2 ^ 11 ||| 2 ^ 12 := by
  refine ⟨by decide, by decide⟩

/-- C7: the bitwise compositions validate first and never compose
partially. When the source does not fit inside the destination at the
placement point (a zero or oversized source dimension, or a rectangle
sticking out), the call returns `OutOfBounds` before touching the
destination — the embedding returns the error without producing a new
grid, mirroring the source where the row loop is only reached after
`ArrayRect::new` succeeds. On success, every destination cell outside the
placed source's `sw x sh` footprint keeps its prior value. `bitand_at`,
`bitor_at` and `bitxor_at` are literal instances of `bitwise_op_at`. -/
theorem bitwise_at_no_partial_and_frame (W H data sw sh src ax ay : Nat)
    (op : Nat → Nat → Nat) :
    ((sw = 0 ∨ sh = 0 ∨ W < sw ∨ H < sh ∨ W < ax + sw ∨ H < ay + sh) →
      ArrayGrid.bitwiseOpAt W H data sw sh src ax ay op = Except.error ())
    ∧ (∀ res, ArrayGrid.bitwiseOpAt W H data sw sh src ax ay op = Except.ok res →
        ∀ x y, x < W → y < H →
          (x < ax ∨ ax + sw ≤ x ∨ y < ay ∨ ay + sh ≤ y) →
          res.testBit (y * W + x) = data.testBit (y * W + x))
    ∧ ArrayGrid.bitandAt W H data sw sh src ax ay
        = ArrayGrid.bitwiseOpAt W H data sw sh src ax ay Nat.land
    ∧ ArrayGrid.bitorAt W H data sw sh src ax ay
        = ArrayGrid.bitwiseOpAt W H data sw sh src ax ay Nat.lor
    ∧ ArrayGrid.bitxorAt W H data sw sh src ax ay
        = ArrayGrid.bitwiseOpAt W H data sw sh src ax ay Nat.xor := by
  refine ⟨?_, ?_, rfl, rfl, rfl⟩
  · intro hbad
    unfold ArrayGrid.bitwiseOpAt
    rw [if_pos hbad]
  · intro res hok x y hx hy hout
    unfold ArrayGrid.bitwiseOpAt at hok
    by_cases hbad : sw = 0 ∨ sh = 0 ∨ W < sw ∨ H < sh ∨ W < ax + sw ∨ H < ay + sh
    · rw [if_pos hbad] at hok
      cases hok
    · rw [if_neg hbad] at hok
      push_neg at hbad
      have hres : res = (List.range sh).foldl
          (fun acc r =>
            insertBits acc ((ay + r) * W + ax) sw
              (op (extractBits acc ((ay + r) * W + ax) sw) (extractBits src (r * sw) sw)))
          data := by
        injection hok with hok
        exact hok.symm
      rw [hres]
      apply bitwiseFold_testBit_outside
      intro r hr hin
      obtain ⟨hyr, hxlo, hxhi⟩ :=
        row_interval_cases W ax sw x y (ay + r) hx (by omega) hin.1 hin.2
      omega

/-- C7 witness: an 8x8 destination with a 2x2 source. Placement at (7, 7)
does not fit and errors; placement at (1, 1) succeeds, and the cell (0, 0)
(outside the footprint) keeps its prior value. -/
theorem bitwise_at_no_partial_and_frame_witness :
    ArrayGrid.bitwiseOpAt 8 8 (2 ^ 64 - 1) 2 2 15 7 7 Nat.xor = Except.error ()
    ∧ Nat.testBit ((2 ^ 64 - 1) - (2 ^ 9 + 2 ^ 10 + 2 ^ 17 + 2 ^ 18)) 0
        = Nat.testBit (2 ^ 64 - 1) 0 := by
  constructor
  · exact (bitwise_at_no_partial_and_frame 8 8 (2 ^ 64 - 1) 2 2 15 7 7 Nat.xor).1
      (by decide)
  · exact (bitwise_at_no_partial_and_frame 8 8 (2 ^ 64 - 1) 2 2 15 1 1 Nat.xor).2.1
      ((2 ^ 64 - 1) - (2 ^ 9 + 2 ^ 10 + 2 ^ 17 + 2 ^ 18)) (by rfl)
      0 0 (by decide) (by decide) (Or.inl (by decide))

/-- C3: the tail-bit invariant `data < 2 ^ (W * H)` — equivalently, every
flat bit at index `W * H` or above is unset, first conjunct — holds after
every public constructor and mutating operation of `ArrayGrid`:
construction from a caller-supplied raw word array, the `FULL` constant,
`const_set` at a validated index (the path every successful `set` takes),
`fill` (hence `clear`), `negate`, `translate`, `mutate_data` with an
arbitrary closure, and a successful `bitwise_op_at` composition. The
operations that can introduce garbage end in `clear_trailing_bits`; the
others only touch bits below `W * H`. -/
theorem tail_invariant_preserved (W H WORDS : Nat) (w data src : Nat) (i : Nat) (v : Bool)
    (dx dy : Int) (f : Nat → Nat) (sw sh ax ay : Nat) (op : Nat → Nat → Nat) :
    (data < 2 ^ (W * H) ↔ ∀ j, W * H ≤ j → data.testBit j = false)
    ∧ ArrayGrid.fromWords W H w < 2 ^ (W * H)
    ∧ ArrayGrid.FULL W H WORDS < 2 ^ (W * H)
    ∧ (data < 2 ^ (W * H) → i < W * H → ArrayGrid.constSet data i v < 2 ^ (W * H))
    ∧ (data < 2 ^ (W * H) → ArrayGrid.fill W H data v < 2 ^ (W * H))
    ∧ ArrayGrid.negate W H WORDS data < 2 ^ (W * H)
    ∧ (data < 2 ^ (W * H) → ArrayGrid.translate W H WORDS data dx dy < 2 ^ (W * H))
    ∧ ArrayGrid.mutateData W H data f < 2 ^ (W * H)
    ∧ (data < 2 ^ (W * H) →
        ∀ res, ArrayGrid.bitwiseOpAt W H data sw sh src ax ay op = Except.ok res →
          res < 2 ^ (W * H)) := by
  refine ⟨testBit_lt_iff_high data (W * H), clearTrailingBits_lt W H w,
    clearTrailingBits_lt W H _, ?_, fun h => fill_lt W H data v h,
    clearTrailingBits_lt W H _, ?_, clearTrailingBits_lt W H _, ?_⟩
  · intro hdata hi
    unfold ArrayGrid.constSet
    cases v
    · rw [testBit_lt_iff_high]
      intro j hj
      rw [if_neg (by simp), Nat.testBit_ldiff,
        (testBit_lt_iff_high data (W * H)).mp hdata j hj]
      rfl
    · rw [testBit_lt_iff_high]
      intro j hj
      rw [if_pos rfl, Nat.testBit_lor,
        (testBit_lt_iff_high data (W * H)).mp hdata j hj, Nat.testBit_two_pow]
      simp
      omega
  · intro hdata
    unfold ArrayGrid.translate
    by_cases h1 : W ≤ dx.natAbs ∨ H ≤ dy.natAbs
    · rw [if_pos h1]
      exact fill_lt W H data false hdata
    · rw [if_neg h1]
      show (if dy * (W : Int) + dx = 0 then data
        else if 0 < dy * (W : Int) + dx then
          ArrayGrid.clearTrailingBits W H (ArrayGrid.clearWrappedColumns W H dx
            ((data <<< (dy * (W : Int) + dx).toNat) % 2 ^ (64 * WORDS)))
        else ArrayGrid.clearTrailingBits W H (ArrayGrid.clearWrappedColumns W H dx
          (data >>> (-(dy * (W : Int) + dx)).toNat))) < 2 ^ (W * H)
      split_ifs with h2 h3
      · exact hdata
      · exact clearTrailingBits_lt W H _
      · exact clearTrailingBits_lt W H _
  · intro hdata res hok
    unfold ArrayGrid.bitwiseOpAt at hok
    by_cases hbad : sw = 0 ∨ sh = 0 ∨ W < sw ∨ H < sh ∨ W < ax + sw ∨ H < ay + sh
    · rw [if_pos hbad] at hok
      cases hok
    · rw [if_neg hbad] at hok
      push_neg at hbad
      have hres : res = (List.range sh).foldl
          (fun acc r =>
            insertBits acc ((ay + r) * W + ax) sw
              (op (extractBits acc ((ay + r) * W + ax) sw) (extractBits src (r * sw) sw)))
          data := by
        injection hok with hok
        exact hok.symm
      rw [testBit_lt_iff_high]
      intro j hj
      rw [hres]
      rw [bitwiseFold_testBit_outside]
      · exact (testBit_lt_iff_high data (W * H)).mp hdata j hj
      · intro r hr hin
        have hrow : (ay + r + 1) * W ≤ H * W := Nat.mul_le_mul_right W (by omega)
        have hend : (ay + r) * W + ax + sw ≤ W * H := by
          have h1 : (ay + r) * W + ax + sw ≤ (ay + r) * W + W := by omega
          have h2 : (ay + r) * W + W = (ay + r + 1) * W := by ring
          have h3 : H * W = W * H := Nat.mul_comm H W
          omega
        omega

/-- C3 witness at the 3x3 grid (9 cells in one word): raw-word
construction, `const_set`, `fill`, `negate`, `translate`, `mutate_data`
and a successful 2x2 xor composition all leave the tail bits clear. -/
theorem tail_invariant_preserved_witness :
    ((5 : Nat) < 2 ^ (3 * 3) ↔ ∀ j, 3 * 3 ≤ j → Nat.testBit 5 j = false)
    ∧ ArrayGrid.fromWords 3 3 (2 ^ 64 - 1) < 2 ^ (3 * 3)
    ∧ ArrayGrid.FULL 3 3 1 < 2 ^ (3 * 3)
    ∧ ArrayGrid.constSet 5 8 true < 2 ^ (3 * 3)
    ∧ ArrayGrid.fill 3 3 5 true < 2 ^ (3 * 3)
    ∧ ArrayGrid.negate 3 3 1 5 < 2 ^ (3 * 3)
    ∧ ArrayGrid.translate 3 3 1 5 1 1 < 2 ^ (3 * 3)
    ∧ ArrayGrid.mutateData 3 3 5 (fun d => d + 2 ^ 40) < 2 ^ (3 * 3)
    ∧ ArrayGrid.bitwiseOpAt 3 3 5 2 2 15 1 1 Nat.xor = Except.ok 437
    ∧ (437 : Nat) < 2 ^ (3 * 3) := by
  have h := tail_invariant_preserved 3 3 1 (2 ^ 64 - 1) 5 15 8 true 1 1
    (fun d => d + 2 ^ 40) 2 2 1 1 Nat.xor
  refine ⟨h.1, h.2.1, h.2.2.1, h.2.2.2.1 (by decide) (by decide),
    h.2.2.2.2.1 (by decide), h.2.2.2.2.2.1, h.2.2.2.2.2.2.1 (by decide),
    h.2.2.2.2.2.2.2.1, by rfl, ?_⟩
  exact h.2.2.2.2.2.2.2.2 (by decide) 437 (by rfl)

/-! ## Lemmas for the Octile factorization -/

theorem lor_shiftLeft (a b k : Nat) : (a ||| b) <<< k = (a <<< k) ||| (b <<< k) := by
  apply Nat.eq_of_testBit_eq
  intro i
  simp only [Nat.testBit_lor, Nat.testBit_shiftLeft]
  cases decide (i ≥ k) <;> simp

theorem lor_shiftRight (a b k : Nat) : (a ||| b) >>> k = (a >>> k) ||| (b >>> k) := by
  apply Nat.eq_of_testBit_eq
  intro i
  simp only [Nat.testBit_lor, Nat.testBit_shiftRight]

theorem lor_mod_two_pow (a b k : Nat) : (a ||| b) % 2 ^ k = (a % 2 ^ k) ||| (b % 2 ^ k) := by
  apply Nat.eq_of_testBit_eq
  intro i
  simp only [Nat.testBit_lor, Nat.testBit_mod_two_pow]
  cases decide (i < k) <;> simp

theorem lor_land (a b c : Nat) : (a ||| b) &&& c = (a &&& c) ||| (b &&& c) := by
  apply Nat.eq_of_testBit_eq
  intro i
  simp only [Nat.testBit_lor, Nat.testBit_land]
  cases a.testBit i <;> cases b.testBit i <;> cases c.testBit i <;> rfl

theorem GridMask.shiftY_at_zero (m : Nat) : GridMask.shiftY m 0 = some m := by
  unfold GridMask.shiftY
  rw [if_neg (by norm_num), if_neg (by norm_num), if_pos rfl]

theorem GridMask.shiftY_at_one (m : Nat) :
    GridMask.shiftY m 1 = some ((m <<< 8) % 2 ^ 64) := by
  unfold GridMask.shiftY
  rw [if_pos (by norm_num)]
  rfl

theorem GridMask.shiftY_at_negone (m : Nat) :
    GridMask.shiftY m (-1) = some (m >>> 8) := by
  unfold GridMask.shiftY
  rw [if_neg (by norm_num), if_pos (by norm_num)]
  rfl

theorem GridMask.translate_vy_zero (m : Nat) (vx : Int) :
    GridMask.translate m vx 0 = GridMask.shiftX m vx := by
  unfold GridMask.translate
  rw [GridMask.shiftY_at_zero]

theorem GridMask.translate_vy_one (m : Nat) (vx : Int) :
    GridMask.translate m vx 1 = GridMask.shiftX ((m <<< 8) % 2 ^ 64) vx := by
  unfold GridMask.translate
  rw [GridMask.shiftY_at_one]

theorem GridMask.translate_vy_negone (m : Nat) (vx : Int) :
    GridMask.translate m vx (-1) = GridMask.shiftX (m >>> 8) vx := by
  unfold GridMask.translate
  rw [GridMask.shiftY_at_negone]

theorem GridMask.shiftX_at_zero (my : Nat) : GridMask.shiftX my 0 = my := by
  unfold GridMask.shiftX
  rw [if_neg (by norm_num), if_neg (by norm_num), if_pos rfl]

theorem GridMask.shiftX_at_one (my : Nat) :
    GridMask.shiftX my 1
      = ((my <<< 1) % 2 ^ 64)
          &&& u64Not ((generateMaskU64 0 1 * GridMask.COL_FIRST) % 2 ^ 64) := by
  unfold GridMask.shiftX
  rw [if_pos (by norm_num)]
  rfl

theorem GridMask.shiftX_at_negone (my : Nat) :
    GridMask.shiftX my (-1)
      = (my >>> 1)
          &&& u64Not ((generateMaskU64 7 64 * GridMask.COL_FIRST) % 2 ^ 64) := by
  unfold GridMask.shiftX
  rw [if_neg (by norm_num), if_pos (by norm_num)]
  rfl

theorem GridMask.shiftX_at_one_lor (a b : Nat) :
    GridMask.shiftX (a ||| b) 1 = GridMask.shiftX a 1 ||| GridMask.shiftX b 1 := by
  rw [GridMask.shiftX_at_one, GridMask.shiftX_at_one, GridMask.shiftX_at_one,
    lor_shiftLeft, lor_mod_two_pow, lor_land]

theorem GridMask.shiftX_at_negone_lor (a b : Nat) :
    GridMask.shiftX (a ||| b) (-1) = GridMask.shiftX a (-1) ||| GridMask.shiftX b (-1) := by
  rw [GridMask.shiftX_at_negone, GridMask.shiftX_at_negone, GridMask.shiftX_at_negone,
    lor_shiftRight, lor_land]

/-- C8: the `Octile::grow` computation — grow vertically first, then grow
the vertical result horizontally — equals the naive union of the mask
with its eight unit-vector translations N, S, E, W, NE, NW, SE, SW. Both
sides route the horizontal step through the same `vector.x` arm of
`GridMask::translate`, which distributes over union, and a diagonal
translation is literally the horizontal arm applied to the vertically
shifted mask. -/
theorem octile_grow_eq_eight_union (m : Nat) :
    Adjacency.grow .octile m
      = m ||| GridMask.translate m 0 (-1) ||| GridMask.translate m 0 1
          ||| GridMask.translate m 1 0 ||| GridMask.translate m (-1) 0
          ||| GridMask.translate m 1 (-1) ||| GridMask.translate m (-1) (-1)
          ||| GridMask.translate m 1 1 ||| GridMask.translate m (-1) 1 := by
  have hgrow : Adjacency.grow .octile m
      = (m ||| GridMask.translate m 0 (-1) ||| GridMask.translate m 0 1)
        ||| GridMask.translate (m ||| GridMask.translate m 0 (-1)
              ||| GridMask.translate m 0 1) 1 0
        ||| GridMask.translate (m ||| GridMask.translate m 0 (-1)
              ||| GridMask.translate m 0 1) (-1) 0 := rfl
  rw [hgrow]
  rw [GridMask.translate_vy_negone m 0, GridMask.translate_vy_one m 0,
    GridMask.shiftX_at_zero, GridMask.shiftX_at_zero]
  rw [GridMask.translate_vy_zero _ 1, GridMask.translate_vy_zero _ (-1),
    GridMask.translate_vy_zero m 1, GridMask.translate_vy_zero m (-1),
    GridMask.translate_vy_negone m 1, GridMask.translate_vy_negone m (-1),
    GridMask.translate_vy_one m 1, GridMask.translate_vy_one m (-1)]
  rw [GridMask.shiftX_at_one_lor, GridMask.shiftX_at_one_lor,
    GridMask.shiftX_at_negone_lor, GridMask.shiftX_at_negone_lor]
  apply Nat.eq_of_testBit_eq
  intro i
  simp only [Nat.testBit_lor]
  cases m.testBit i <;>
    cases (GridMask.shiftX m 1).testBit i <;>
    cases (GridMask.shiftX m (-1)).testBit i <;>
    cases (GridMask.shiftX (m >>> 8) 1).testBit i <;>
    cases (GridMask.shiftX (m >>> 8) (-1)).testBit i <;>
    cases (GridMask.shiftX ((m <<< 8) % 2 ^ 64) 1).testBit i <;>
    cases (GridMask.shiftX ((m <<< 8) % 2 ^ 64) (-1)).testBit i <;>
    cases (m >>> 8).testBit i <;>
    cases ((m <<< 8) % 2 ^ 64).testBit i <;>
    rfl
